import Mathlib

/- Shallow embedding of src/iCal_from_excel.py.

   Python strings are modelled as lists of characters (`Str`), and the
   text built-ins the script uses (strip, split, replace, `in`, the
   regular expressions it applies) are embedded below as executable
   functions.  Character classes (regex \d, str.isdigit, whitespace)
   are modelled over ASCII, which covers every character these classes
   are applied to by the script's inputs of interest.  Python
   exceptions are modelled with Except; the script's try/except
   wrappers become the explicit error branches of the embedded
   functions. -/

abbrev Str := List Char

/-- Whitespace as stripped by str.strip (space, tab, LF, CR). -/
def isWsChar (c : Char) : Bool :=
  c.toNat = 32 || c.toNat = 9 || c.toNat = 10 || c.toNat = 13

/-- ASCII decimal digit (regex \d / str.isdigit on the script's data). -/
def isDig (c : Char) : Bool := 48 ≤ c.toNat && c.toNat ≤ 57

/-- Remove trailing whitespace. -/
def stripEnd (l : Str) : Str := (l.reverse.dropWhile isWsChar).reverse

/-- Python str.strip(). -/
def strip (l : Str) : Str := stripEnd (l.dropWhile isWsChar)

/-- Python s.split(sep) for a one-character separator: keeps empty parts,
    returns [""] on the empty string. -/
def splitOnChar (sep : Char) : Str → List Str
  | [] => [[]]
  | c :: cs =>
    if c = sep then [] :: splitOnChar sep cs
    else
      match splitOnChar sep cs with
      | [] => [[c]]
      | p :: ps => (c :: p) :: ps

/-- Python s.replace(pat, rep), scanning left to right over
    non-overlapping occurrences.  Fuelled so that the recursion is
    structural; each step consumes at least one input character, so
    fuel = length of the input suffices. -/
def replaceF : Nat → Str → Str → Str → Str
  | 0, _, _, s => s
  | f + 1, pat, rep, s =>
    match s with
    | [] => []
    | c :: cs =>
      if pat ≠ [] ∧ pat.isPrefixOf (c :: cs) then
        rep ++ replaceF f pat rep (cs.drop (pat.length - 1))
      else
        c :: replaceF f pat rep cs

/-- Python s.replace(pat, rep) (pat nonempty in every use below). -/
def replaceAll (pat rep s : Str) : Str := replaceF s.length pat rep s

/-- Python `pat in s` substring test. -/
def containsSub (pat : Str) : Str → Bool
  | [] => pat.isEmpty
  | c :: cs => pat.isPrefixOf (c :: cs) || containsSub pat cs

/-- Value of an ASCII digit string (most significant digit first). -/
def digitsToNat (l : Str) : Nat := l.foldl (fun a c => a * 10 + (c.toNat - 48)) 0

/-- Python int(text) on the texts this script feeds it: optional
    surrounding whitespace around a nonempty ASCII digit string; `none`
    models the ValueError raised otherwise. -/
def parseIntPy (s : Str) : Option Nat :=
  let t := strip s
  if t ≠ [] ∧ t.all isDig then some (digitsToNat t) else none

/-- The week filter of parse_weeks, line 96/100 of the source:
    (is_odd and week % 2 == 1) or (is_even and week % 2 == 0)
    or (not is_odd and not is_even). -/
def weekFilter (isOdd isEven : Bool) (w : Nat) : Bool :=
  (isOdd && w % 2 == 1) || (isEven && w % 2 == 0) || (!isOdd && !isEven)

def oddMarker : Str := ['单', '周']

def evenMarker : Str := ['双', '周']

/-- Ordered duplicate-free insertion, the building block of
    sorted(list(set(weeks))). -/
def insOrd (x : Nat) : List Nat → List Nat
  | [] => [x]
  | y :: ys => if x < y then x :: y :: ys else if x = y then y :: ys else y :: insOrd x ys

/-- Python sorted(list(set(l))): the ascending enumeration of the
    distinct elements of l. -/
def sortDedup (l : List Nat) : List Nat := l.foldr insOrd []

/-- One iteration of the `for part in week_str.split(',')` loop of
    parse_weeks (source lines 91-101); Except models the ValueError of
    int() escaping the loop. -/
def parsePart (isOdd isEven : Bool) (part0 : Str) : Except Unit (List Nat) :=
  let part := strip part0
  if '-' ∈ part then
    match splitOnChar '-' part with
    | [a, b] =>
      match parseIntPy a, parseIntPy b with
      | some s, some e => .ok ((List.range' s (e + 1 - s)).filter (weekFilter isOdd isEven))
      | _, _ => .error ()
    | _ => .error ()
  else if part ≠ [] ∧ part.all isDig then
    .ok (if weekFilter isOdd isEven (digitsToNat part) then [digitsToNat part] else [])
  else .ok []

/-- The whole part loop, concatenating contributions in order; any
    part's exception aborts the call. -/
def partsWeeks (isOdd isEven : Bool) : List Str → Except Unit (List Nat)
  | [] => .ok []
  | p :: ps =>
    match parsePart isOdd isEven p with
    | .error e => .error e
    | .ok w =>
      match partsWeeks isOdd isEven ps with
      | .error e => .error e
      | .ok ws => .ok (w ++ ws)

/-- Body of parse_weeks' try block (source lines 85-103). -/
def parse_weeks_core (s0 : Str) : Except Unit (List Nat) :=
  let t := strip s0
  let isOdd := containsSub oddMarker t
  let isEven := containsSub evenMarker t
  let u := replaceAll ['周'] [] (replaceAll evenMarker [] (replaceAll oddMarker [] t))
  match partsWeeks isOdd isEven (splitOnChar ',' u) with
  | .ok ws => .ok (sortDedup ws)
  | .error e => .error e

/-- parse_weeks (source lines 73-106).  The `none` input models a
    non-string argument such as None; the falsy / non-string guard and
    the except branch both return the empty list. -/
def parse_weeks : Option Str → List Nat
  | none => []
  | some s =>
    if s = [] then []
    else
      match parse_weeks_core s with
      | .ok ws => ws
      | .error _ => []

example : parse_weeks (some "1-16周".data) =
    [1, 2, 3, 4, 5, 6, 7, 8, 9, 10, 11, 12, 13, 14, 15, 16] := by decide
example : parse_weeks (some "1-15单周".data) = [1, 3, 5, 7, 9, 11, 13, 15] := by decide
example : parse_weeks (some "2-16双周".data) = [2, 4, 6, 8, 10, 12, 14, 16] := by decide
example : parse_weeks (some "1-8,10-16".data) =
    [1, 2, 3, 4, 5, 6, 7, 8, 10, 11, 12, 13, 14, 15, 16] := by decide
example : parse_weeks (some "".data) = [] := by decide
example : parse_weeks (some "3-".data) = [] := by decide
example : parse_weeks (some "1-2-3".data) = [] := by decide
example : parse_weeks (some "15周".data) = [15] := by decide
example : parse_weeks (some "1-2单周双周".data) = [1, 2] := by decide

/- ===== Course cell parser (parse_course_info, source lines 18-71) ===== -/

/-- The record built by parse_course_info. -/
structure CourseInfo where
  course_name : Str
  teacher : Str
  class_info : Str
  week_info : Str
  location : Str
  time_info : Str
deriving DecidableEq

/-- re.sub(r'^\[|\]$', '', line): drop one leading '[' and one
    trailing ']' independently, each only if present. -/
def stripBr (l : Str) : Str :=
  let l1 := match l with
    | '[' :: t => t
    | _ => l
  match l1.reverse with
  | ']' :: t => t.reverse
  | _ => l1

/-- Line normalization of parse_course_info (source lines 30-31):
    unify CRLF, strip the whole text, split on LF, strip each line,
    drop blank lines. -/
def normLines (s : Str) : List Str :=
  (((splitOnChar '\n' (strip (replaceAll ['\r', '\n'] ['\n'] s))).map strip).filter
    (fun l => !l.isEmpty))

/-- re.findall(r'\[(.*?)\]', line): left-to-right scan; at '[' collect
    up to the nearest following ']'; a '[' with no later ']' matches
    nothing (and then nothing after it can match either). -/
def findBracketsAux : Bool → Str → Str → List Str
  | _, _, [] => []
  | false, _, c :: cs =>
    if c = '[' then findBracketsAux true [] cs else findBracketsAux false [] cs
  | true, acc, c :: cs =>
    if c = ']' then acc.reverse :: findBracketsAux false [] cs
    else findBracketsAux true (c :: acc) cs

def findBrackets (s : Str) : List Str := findBracketsAux false [] s

/-- The suffix alternatives of the classification regex
    ^(\d+-\d+|\d+)(单周|双周|周)?$ after the numeric part. -/
def weekSuffixOk (r : Str) : Bool :=
  decide (r = [] ∨ r = ['单', '周'] ∨ r = ['双', '周'] ∨ r = ['周'])

/-- re.match(r'^(\d+-\d+|\d+)(单周|双周|周)?$', content): a single
    integer or a single hyphenated range, optionally suffixed by one
    odd/even/week marker.  The regex accepts no comma. -/
def matchesWeekRule (s : Str) : Bool :=
  let d1 := s.takeWhile isDig
  if d1 = [] then false
  else
    match s.dropWhile isDig with
    | '-' :: r2 =>
      if r2.takeWhile isDig = [] then false else weekSuffixOk (r2.dropWhile isDig)
    | r1 => weekSuffixOk r1

/-- re.match(r'^\d+-\d+节$', content). -/
def matchesTimeRule (s : Str) : Bool :=
  match s.dropWhile isDig with
  | '-' :: r2 =>
    decide (s.takeWhile isDig ≠ [] ∧ r2.takeWhile isDig ≠ [] ∧ r2.dropWhile isDig = ['节'])
  | _ => false

/-- any(keyword in content for keyword in ['栋','教','楼','园','场','实验室']). -/
def hasLocKeyword (s : Str) : Bool :=
  s.contains '栋' || s.contains '教' || s.contains '楼' || s.contains '园' ||
    s.contains '场' || containsSub ['实', '验', '室'] s

/-- re.match(r'^\d', content). -/
def startsDigit : Str → Bool
  | [] => false
  | c :: _ => isDig c

/-- re.match(r'^\d+-\d+', content) (prefix match, unanchored at the end). -/
def startsTimeRange (s : Str) : Bool :=
  match s.dropWhile isDig with
  | '-' :: r2 => decide (s.takeWhile isDig ≠ [] ∧ r2.takeWhile isDig ≠ [])
  | _ => false

/-- One iteration of the bracket-classification loop of
    parse_course_info (source lines 50-66). -/
def classifyStep (r : CourseInfo) (content : Str) : CourseInfo :=
  if matchesWeekRule content then { r with week_info := content }
  else if matchesTimeRule content then { r with time_info := content }
  else if hasLocKeyword content then { r with location := content }
  else if r.week_info = [] ∧ startsDigit content then { r with week_info := content }
  else if r.time_info = [] ∧ startsTimeRange content then { r with time_info := content }
  else { r with location := content }

/-- parse_course_info after line normalization (source lines 33-68):
    fewer than four lines fail; otherwise fields come from the first
    four lines, with the fourth line's brackets classified in order. -/
def parseFromLines (lines : List Str) : Option CourseInfo :=
  if lines.length < 4 then none
  else
    some ((findBrackets (lines.getD 3 [])).foldl classifyStep
      { course_name := strip ((lines.getD 0 []).takeWhile (fun c => c ≠ '[')),
        teacher := stripBr (lines.getD 1 []),
        class_info := stripBr (lines.getD 2 []),
        week_info := [], location := [], time_info := [] })

/-- parse_course_info (source lines 18-71).  The guard models
    `not cell_content or cell_content.strip() == ""`; nothing in the
    guarded body can raise, so the except branch is unreachable. -/
def parse_course_info (s : Str) : Option CourseInfo :=
  if strip s = [] then none else parseFromLines (normLines s)

example : parse_course_info "高等数学\n[张老师]\n[计算机2301]\n[1-16周][教三-301][1-2节]".data =
    some ⟨"高等数学".data, "张老师".data, "计算机2301".data,
      "1-16周".data, "教三-301".data, "1-2节".data⟩ := by decide
example : parse_course_info "体育\n[王老师]".data = none := by decide
example : parse_course_info "[数学]\n[张老师]\n[计算机2301]\n[1-2周]".data =
    some ⟨[], "张老师".data, "计算机2301".data, "1-2周".data, [], []⟩ := by decide
example : parse_course_info "数学\n[张三]\n[软件2301]\n[1-16周][1-8,10-16周]".data =
    some ⟨"数学".data, "张三".data, "软件2301".data,
      "1-16周".data, [], "1-8,10-16周".data⟩ := by decide
example : parse_course_info "数学\n[张三]\n[软件2301]\n[1-8,10-16周]".data =
    some ⟨"数学".data, "张三".data, "软件2301".data,
      "1-8,10-16周".data, [], []⟩ := by decide

/- ===== Schedule expander (create_ical_from_excel, source lines 108-216) ===== -/

/-- Civil date to days since 1970-01-01 (the day-number semantics of
    datetime date arithmetic; timedelta(weeks, days) is addition on
    this day number). -/
def daysFromCivil (y m d : Int) : Int :=
  let y' : Int := if m ≤ 2 then y - 1 else y
  let era : Int := Int.fdiv y' 400
  let yoe : Int := y' - era * 400
  let mp : Int := if 2 < m then m - 3 else m + 9
  let doy : Int := Int.fdiv (153 * mp + 2) 5 + d - 1
  let doe : Int := yoe * 365 + Int.fdiv yoe 4 - Int.fdiv yoe 100 + doy
  era * 146097 + doe - 719468

/-- Day of week of a day number, 0 = Sunday (1970-01-01 was a Thursday). -/
def dayOfWeek (d : Int) : Int := (d + 4) % 7

/-- A datetime as the script uses it: a calendar day plus a wall-clock
    hour and minute (seconds stay zero throughout). -/
structure DateTime where
  day : Int
  hour : Nat
  minute : Nat
deriving DecidableEq

/-- One emitted calendar event (summary, description, location,
    dtstart, dtend); the dtstamp wall-clock timestamp is
    non-semantic and not modelled. -/
structure EventRecord where
  summary : Str
  description : Str
  location : Str
  dtstart : DateTime
  dtend : DateTime
deriving DecidableEq

/-- semester_start = datetime(2025, 2, 17) (source line 123). -/
def semester_start : Int := daysFromCivil 2025 2 17

/-- A grid cell: None or a string (source reads cells via df.iloc). -/
abbrev Cell := Option Str

/-- Dictionary lookup on an association list. -/
def assocLookup {β : Type} (m : List (Str × β)) (k : Str) : Option β :=
  match m with
  | [] => none
  | (k', v) :: rest => if k = k' then some v else assocLookup rest k

/-- weekday_map (source lines 124-125). -/
def weekday_map : List (Str × Nat) :=
  [("星期一".data, 0), ("星期二".data, 1), ("星期三".data, 2), ("星期四".data, 3),
   ("星期五".data, 4), ("星期六".data, 5), ("星期日".data, 6)]

abbrev ClockRange := Nat × Nat × Nat × Nat

/-- class_time_map (source lines 126-132). -/
def class_time_map : List (Str × ClockRange) :=
  [("1-2节".data, (8, 0, 9, 50)), ("3-4节".data, (10, 10, 12, 0)),
   ("5-6节".data, (14, 0, 15, 50)), ("7-8节".data, (16, 0, 17, 50)),
   ("9-10节".data, (19, 0, 20, 50))]

/-- digit→string conversion for the f-string 第{week}周, fuelled. -/
def natToStrF : Nat → Nat → Str
  | 0, _ => []
  | f + 1, n =>
    if n < 10 then [Char.ofNat (48 + n)]
    else natToStrF f (n / 10) ++ [Char.ofNat (48 + n % 10)]

def natToStr (n : Nat) : Str := natToStrF (n + 1) n

/-- re.search(r'第(\d+)-(\d+)节', s) attempted at one position, just
    after a '第': greedy digit groups, then '-', digits, '节'. -/
def trySlotAt (cs : Str) : Option (Str × Str) :=
  let d1 := cs.takeWhile isDig
  if d1 = [] then none
  else
    match cs.dropWhile isDig with
    | '-' :: r2 =>
      let d2 := r2.takeWhile isDig
      if d2 = [] then none
      else
        match r2.dropWhile isDig with
        | '节' :: _ => some (d1, d2)
        | _ => none
    | _ => none

/-- re.search(r'第(\d+)-(\d+)节', s): leftmost match. -/
def searchSlot : Str → Option (Str × Str)
  | [] => none
  | c :: cs =>
    if c = '第' then
      match trySlotAt cs with
      | some g => some g
      | none => searchSlot cs
    else searchSlot cs

/-- Event assembly for one (course, weekday, week) triple (source
    lines 175-203): the date is semester_start + (week-1) whole weeks
    + the weekday offset, with the slot's clock range attached. -/
def mkEvent (ci : CourseInfo) (timeKey : Str) (tm : ClockRange) (off : Nat) (week : Nat) :
    EventRecord :=
  let day : Int := semester_start + 7 * ((week : Int) - 1) + (off : Int)
  { summary := ci.course_name,
    description :=
      "教师: ".data ++ ci.teacher ++ "\n班级: ".data ++ ci.class_info ++
        "\n周次: 第".data ++ natToStr week ++ "周\n时间: ".data ++ timeKey ++
        "\n地点: ".data ++ ci.location,
    location := ci.location,
    dtstart := ⟨day, tm.1, tm.2.1⟩,
    dtend := ⟨day, tm.2.2.1, tm.2.2.2⟩ }

/-- One weekday column of one body row (source lines 153-203): check
    the header label, the cell text, the cell parse and the week set,
    then emit one event per week.  Out-of-range accesses yield None
    (the input contract guarantees a rectangular grid). -/
def weekdayCol (header row : List Cell) (timeKey : Str) (tm : ClockRange) (c : Nat) :
    List EventRecord :=
  match (header.get? c).getD none with
  | none => []
  | some wd =>
    match assocLookup weekday_map wd with
    | none => []
    | some off =>
      match (row.get? c).getD none with
      | none => []
      | some txt =>
        if strip txt = [] then []
        else
          match parse_course_info txt with
          | none => []
          | some ci =>
            let weeks := parse_weeks (some ci.week_info)
            if weeks = [] then [] else weeks.map (mkEvent ci timeKey tm off)

/-- One body row (source lines 137-203): require a '第' marker and a
    第N-M节 label with N ≠ M whose key is in class_time_map, then walk
    weekday columns 1..7. -/
def rowEvents (header row : List Cell) : List EventRecord :=
  match (row.get? 0).getD none with
  | none => []
  | some slot =>
    if '第' ∈ slot then
      match searchSlot slot with
      | none => []
      | some (d1, d2) =>
        if d1 = d2 then []
        else
          match assocLookup class_time_map (d1 ++ '-' :: (d2 ++ ['节'])) with
          | none => []
          | some tm =>
            (List.range' 1 7).flatMap (weekdayCol header row (d1 ++ '-' :: (d2 ++ ['节'])) tm)
    else []

/-- The whole grid walk: weekday headers live in row 2; body rows
    start at row 3. -/
def createEvents (grid : List (List Cell)) : List EventRecord :=
  (grid.drop 3).flatMap (rowEvents ((grid.get? 2).getD []))

/-- The end-to-end grid of the spec's testable property: one body row
    第1-2节, weekday 星期一, and the 高等数学 cell. -/
def mathCell : Str := "高等数学\n[张老师]\n[计算机2301]\n[1-16周][教三-301][1-2节]".data

/-- The weekday-header row (row index 2) of the test grids. -/
def hdrRow : List Cell :=
  [none, some "星期一".data, none, none, none, none, none, none]

/-- A body row with the known slot label 第1-2节 and the 高等数学 cell. -/
def bodyRow12 : List Cell :=
  [some "第1-2节".data, some mathCell, none, none, none, none, none, none]

/-- A body row with the unknown slot label 第11-12节. -/
def unknownRow : List Cell :=
  [some "第11-12节".data, some mathCell, none, none, none, none, none, none]

def testGrid : List (List Cell) := [[], [], hdrRow, bodyRow12]

/-- The week-1 event of the test grid (2025-02-17 has day number 20136). -/
def firstEvent : EventRecord :=
  { summary := "高等数学".data,
    description :=
      "教师: 张老师\n班级: 计算机2301\n周次: 第1周\n时间: 1-2节\n地点: 教三-301".data,
    location := "教三-301".data,
    dtstart := ⟨20136, 8, 0⟩,
    dtend := ⟨20136, 9, 50⟩ }

example : semester_start = 20136 := by decide
example : dayOfWeek semester_start = 1 := by decide
example : (createEvents testGrid).length = 16 := by decide
example : (createEvents testGrid).map (fun e => e.dtstart.day) =
    (List.range 16).map (fun i => semester_start + 7 * (i : Int)) := by decide
example : ∀ e ∈ createEvents testGrid,
    e.dtstart.hour = 8 ∧ e.dtstart.minute = 0 ∧ e.dtend.hour = 9 ∧ e.dtend.minute = 50 ∧
    dayOfWeek e.dtstart.day = 1 ∧
    containsSub "教师: 张老师".data e.description = true ∧
    containsSub "地点: 教三-301".data e.description = true := by decide

/- ===== Helper lemmas about the embedded string primitives ===== -/

theorem dropWhile_head_false {p : Char → Bool} {l t : Str} {c : Char}
    (h : l.dropWhile p = c :: t) : p c = false := by
  induction l with
  | nil => simp at h
  | cons a l ih =>
    rw [List.dropWhile_cons] at h
    split at h
    · exact ih h
    · rename_i hp
      injection h with h1 _
      subst h1
      simpa using hp

theorem dropWhile_eq_self {p : Char → Bool} {l : Str} (h : ∀ c ∈ l, p c = false) :
    l.dropWhile p = l := by
  cases l with
  | nil => rfl
  | cons a t => simp [List.dropWhile_cons, h a (List.mem_cons_self a t)]

theorem stripEnd_prefix (l : Str) : stripEnd l <+: l := by
  have h : l.reverse.dropWhile isWsChar <:+ l.reverse := List.dropWhile_suffix isWsChar
  have h2 := List.reverse_prefix.mpr h
  simpa [stripEnd] using h2

theorem strip_head_not_ws {l t : Str} {c : Char} (h : strip l = c :: t) :
    isWsChar c = false := by
  obtain ⟨r, hr⟩ := stripEnd_prefix (l.dropWhile isWsChar)
  have hd : l.dropWhile isWsChar = c :: (t ++ r) := by
    rw [← hr]
    have h' : stripEnd (l.dropWhile isWsChar) = c :: t := h
    rw [h', List.cons_append]
  exact dropWhile_head_false hd

theorem strip_eq_nil_iff {l : Str} : strip l = [] ↔ ∀ c ∈ l, isWsChar c = true := by
  constructor
  · intro h c hc
    have h1 : (l.dropWhile isWsChar).reverse.dropWhile isWsChar = [] := by
      have h2 := congrArg List.reverse h
      simpa [strip, stripEnd] using h2
    rw [List.dropWhile_eq_nil_iff] at h1
    have hsplit : c ∈ l.takeWhile isWsChar ++ l.dropWhile isWsChar := by
      rw [List.takeWhile_append_dropWhile]; exact hc
    rcases List.mem_append.mp hsplit with h2 | h2
    · exact List.mem_takeWhile_imp h2
    · exact h1 c (List.mem_reverse.mpr h2)
  · intro h
    have h1 : l.dropWhile isWsChar = [] := List.dropWhile_eq_nil_iff.mpr (fun c hc => h c hc)
    simp [strip, stripEnd, h1]

theorem strip_eq_self {l : Str} (h : ∀ c ∈ l, isWsChar c = false) : strip l = l := by
  unfold strip stripEnd
  rw [dropWhile_eq_self h, dropWhile_eq_self (fun c hc => h c (List.mem_reverse.mp hc)),
    List.reverse_reverse]

theorem replaceF_mem {f : Nat} {pat rep s : Str} {c : Char}
    (h : c ∈ replaceF f pat rep s) : c ∈ rep ∨ c ∈ s := by
  induction f generalizing s with
  | zero => exact Or.inr h
  | succ f ih =>
    cases s with
    | nil => simp [replaceF] at h
    | cons a cs =>
      simp only [replaceF] at h
      split at h
      · rcases List.mem_append.mp h with h1 | h2
        · exact Or.inl h1
        · rcases ih h2 with h3 | h4
          · exact Or.inl h3
          · exact Or.inr (List.mem_cons_of_mem a (List.mem_of_mem_drop h4))
      · rcases List.mem_cons.mp h with h1 | h2
        · exact Or.inr (h1 ▸ List.mem_cons_self a cs)
        · rcases ih h2 with h3 | h4
          · exact Or.inl h3
          · exact Or.inr (List.mem_cons_of_mem a h4)

theorem replaceF_eq_self {f : Nat} {p : Char} {pt rep s : Str}
    (h : p ∉ s) : replaceF f (p :: pt) rep s = s := by
  induction f generalizing s with
  | zero => rfl
  | succ f ih =>
    cases s with
    | nil => rfl
    | cons a cs =>
      have hpa : p ≠ a := fun e => h (e ▸ List.mem_cons_self a cs)
      have hne : ¬(p :: pt ≠ [] ∧ (p :: pt).isPrefixOf (a :: cs)) := by
        rintro ⟨-, hpre⟩
        simp [List.isPrefixOf, hpa] at hpre
      simp only [replaceF, if_neg hne]
      rw [ih (fun hm => h (List.mem_cons_of_mem a hm))]

theorem containsSub_eq_false {p : Char} {pt s : Str} (h : p ∉ s) :
    containsSub (p :: pt) s = false := by
  induction s with
  | nil => rfl
  | cons a cs ih =>
    have hpa : p ≠ a := fun e => h (e ▸ List.mem_cons_self a cs)
    simp only [containsSub, Bool.or_eq_false_iff]
    exact ⟨by simp [List.isPrefixOf, hpa], ih (fun hm => h (List.mem_cons_of_mem a hm))⟩

theorem splitOnChar_nosep {sep : Char} {l : Str} (h : ∀ c ∈ l, c ≠ sep) :
    splitOnChar sep l = [l] := by
  induction l with
  | nil => rfl
  | cons c cs ih =>
    have hc : c ≠ sep := h c (List.mem_cons_self c cs)
    simp only [splitOnChar, if_neg hc]
    rw [ih (fun a ha => h a (List.mem_cons_of_mem c ha))]

theorem splitOnChar_append {sep : Char} {a b : Str} (h : ∀ c ∈ a, c ≠ sep) :
    splitOnChar sep (a ++ sep :: b) = a :: splitOnChar sep b := by
  induction a with
  | nil => simp [splitOnChar]
  | cons c cs ih =>
    have hc : c ≠ sep := h c (List.mem_cons_self c cs)
    simp only [List.cons_append, splitOnChar, if_neg hc, List.append_eq]
    rw [ih (fun x hx => h x (List.mem_cons_of_mem c hx))]

theorem mem_insOrd {x a : Nat} {l : List Nat} : a ∈ insOrd x l ↔ a = x ∨ a ∈ l := by
  induction l with
  | nil => simp [insOrd]
  | cons y ys ih =>
    simp only [insOrd]
    split
    · simp only [List.mem_cons]
    · split
      · rename_i h1 h2
        subst h2
        simp only [List.mem_cons]
        tauto
      · simp only [List.mem_cons, ih]
        tauto

theorem mem_sortDedup {a : Nat} {l : List Nat} : a ∈ sortDedup l ↔ a ∈ l := by
  induction l with
  | nil => simp [sortDedup]
  | cons x xs ih =>
    have h : sortDedup (x :: xs) = insOrd x (sortDedup xs) := rfl
    rw [h, mem_insOrd, ih, List.mem_cons]

theorem sortDedup_of_chain' {l : List Nat} (h : List.Chain' (· < ·) l) :
    sortDedup l = l := by
  induction l with
  | nil => rfl
  | cons x xs ih =>
    have hx : sortDedup xs = xs := ih h.tail
    show insOrd x (sortDedup xs) = x :: xs
    rw [hx]
    cases xs with
    | nil => rfl
    | cons y ys =>
      have hxy : x < y := (List.chain'_cons.mp h).1
      simp [insOrd, hxy]

theorem dig_not_ws {c : Char} (h : isDig c = true) : isWsChar c = false := by
  simp only [isDig, Bool.and_eq_true, decide_eq_true_eq] at h
  simp only [isWsChar, Bool.or_eq_false_iff, decide_eq_false_iff_not]
  omega

/- ===== Lemmas about parse_weeks ===== -/

theorem parsePart_mem {o e : Bool} {p : Str} {ws : List Nat} {w : Nat}
    (h : parsePart o e p = .ok ws) (hw : w ∈ ws) : weekFilter o e w = true := by
  simp only [parsePart] at h
  split at h
  · split at h
    · split at h
      · rename_i a b s' e' _ _
        cases h
        exact List.of_mem_filter hw
      · simp at h
    · simp at h
  · split at h
    · cases h
      split at hw
      · rename_i hf
        rcases List.mem_singleton.mp hw with rfl
        exact hf
      · simp at hw
    · cases h
      simp at hw

theorem partsWeeks_mem {o e : Bool} {ps : List Str} {ws : List Nat} {w : Nat}
    (h : partsWeeks o e ps = .ok ws) (hw : w ∈ ws) : weekFilter o e w = true := by
  induction ps generalizing ws with
  | nil =>
    simp only [partsWeeks] at h
    cases h
    simp at hw
  | cons p rest ih =>
    simp only [partsWeeks] at h
    cases hp : parsePart o e p with
    | error err => rw [hp] at h; simp at h
    | ok w1 =>
      rw [hp] at h
      cases hr : partsWeeks o e rest with
      | error err => rw [hr] at h; simp at h
      | ok ws2 =>
        rw [hr] at h
        simp only [] at h
        cases h
        rcases List.mem_append.mp hw with h1 | h2
        · exact parsePart_mem hp h1
        · exact ih hr h2

theorem parse_weeks_filter {s : Str} {w : Nat} (hw : w ∈ parse_weeks (some s)) :
    weekFilter (containsSub oddMarker (strip s)) (containsSub evenMarker (strip s)) w
      = true := by
  simp only [parse_weeks] at hw
  split at hw
  · simp at hw
  · cases hc : parse_weeks_core s with
    | error err => rw [hc] at hw; simp at hw
    | ok ws =>
      rw [hc] at hw
      simp only [parse_weeks_core] at hc
      cases hp : partsWeeks (containsSub oddMarker (strip s))
          (containsSub evenMarker (strip s))
          (splitOnChar ','
            (replaceAll ['周'] []
              (replaceAll evenMarker [] (replaceAll oddMarker [] (strip s))))) with
      | error err => rw [hp] at hc; simp at hc
      | ok ws' =>
        rw [hp] at hc
        simp only [Except.ok.injEq] at hc
        subst hc
        exact partsWeeks_mem hp (mem_sortDedup.mp hw)

/- Shared range-parsing lemmas for parse_weeks -/

theorem containsSub_append_left (pat a b : Str) (h : containsSub pat a = true) :
    containsSub pat (a ++ b) = true := by
  induction a with
  | nil =>
    have hp : pat = [] := by simpa [containsSub, List.isEmpty_iff] using h
    subst hp
    cases b with
    | nil => rfl
    | cons c cs => simp [containsSub, List.isPrefixOf]
  | cons c cs ih =>
    simp only [containsSub, Bool.or_eq_true] at h
    rw [List.cons_append]
    simp only [containsSub, Bool.or_eq_true]
    rcases h with h1 | h1
    · refine Or.inl ?_
      have h2 : pat <+: c :: cs := List.isPrefixOf_iff_prefix.mp h1
      have h3 : pat <+: (c :: cs) ++ b := h2.trans (List.prefix_append _ _)
      have h4 : pat.isPrefixOf ((c :: cs) ++ b) = true := List.isPrefixOf_iff_prefix.mpr h3
      simpa using h4
    · exact Or.inr (ih h1)

theorem replaceF_head_match (f : Nat) (p : Char) (pt rep rest : Str) :
    replaceF (f + 1) (p :: pt) rep ((p :: pt) ++ rest) = rep ++ replaceF f (p :: pt) rep rest := by
  have hpre : (p :: pt).isPrefixOf (p :: (pt ++ rest)) = true := by
    rw [List.isPrefixOf_iff_prefix]
    exact List.prefix_append _ _
  show replaceF (f + 1) (p :: pt) rep (p :: (pt ++ rest)) = rep ++ replaceF f (p :: pt) rep rest
  simp only [replaceF, if_pos (And.intro (List.cons_ne_nil p pt) hpre)]
  have harg : (pt ++ rest).drop ((p :: pt).length - 1) = rest := by
    rw [show (p :: pt).length - 1 = pt.length by simp, List.drop_left]
  rw [harg]

theorem replaceAll_strip_head (p : Char) (pt rep rest : Str) (h : p ∉ rest) :
    replaceAll (p :: pt) rep ((p :: pt) ++ rest) = rep ++ rest := by
  unfold replaceAll
  have hlen : ((p :: pt) ++ rest).length = (pt.length + rest.length) + 1 := by
    simp only [List.length_append, List.length_cons]
    omega
  rw [hlen, replaceF_head_match, replaceF_eq_self h]

theorem digitsDash_notmem (ds es : Str) (hds : ∀ c ∈ ds, isDig c = true)
    (hes : ∀ c ∈ es, isDig c = true) (x : Char) (hx : isDig x = false) (hxd : x ≠ '-') :
    x ∉ ds ++ '-' :: es := by
  intro hm
  rcases List.mem_append.mp hm with h1 | h2
  · rw [hds x h1] at hx; cases hx
  · rcases List.mem_cons.mp h2 with h3 | h4
    · exact hxd h3
    · rw [hes x h4] at hx; cases hx

theorem digitsDash_nws (ds es : Str) (hds : ∀ c ∈ ds, isDig c = true)
    (hes : ∀ c ∈ es, isDig c = true) :
    ∀ c ∈ ds ++ '-' :: es, isWsChar c = false := by
  intro c hc
  rcases List.mem_append.mp hc with h1 | h2
  · exact dig_not_ws (hds c h1)
  · rcases List.mem_cons.mp h2 with h3 | h4
    · subst h3; decide
    · exact dig_not_ws (hes c h4)

theorem parseIntPy_digits (ds : Str) (hd : ds ≠ []) (hds : ∀ c ∈ ds, isDig c = true) :
    parseIntPy ds = some (digitsToNat ds) := by
  have h1 : strip ds = ds := strip_eq_self (fun c hc => dig_not_ws (hds c hc))
  simp only [parseIntPy, h1]
  rw [if_pos ⟨hd, List.all_eq_true.mpr hds⟩]

theorem splitOnChar_dash (ds es : Str) (hds : ∀ c ∈ ds, isDig c = true)
    (hes : ∀ c ∈ es, isDig c = true) :
    splitOnChar '-' (ds ++ '-' :: es) = [ds, es] := by
  have hdsnd : ∀ c ∈ ds, c ≠ '-' := by
    intro c hc e
    have h1 := hds c hc
    rw [e] at h1
    exact absurd h1 (by decide)
  have hesnd : ∀ c ∈ es, c ≠ '-' := by
    intro c hc e
    have h1 := hes c hc
    rw [e] at h1
    exact absurd h1 (by decide)
  rw [splitOnChar_append hdsnd, splitOnChar_nosep hesnd]

theorem parsePart_range (o e : Bool) (hf : ∀ w, weekFilter o e w = true)
    (ds es : Str) (hd : ds ≠ []) (he : es ≠ [])
    (hds : ∀ c ∈ ds, isDig c = true) (hes : ∀ c ∈ es, isDig c = true) :
    parsePart o e (ds ++ '-' :: es) =
      .ok (List.range' (digitsToNat ds) (digitsToNat es + 1 - digitsToNat ds)) := by
  have hss : strip (ds ++ '-' :: es) = ds ++ '-' :: es :=
    strip_eq_self (digitsDash_nws ds es hds hes)
  have hdashmem : '-' ∈ ds ++ '-' :: es :=
    List.mem_append.mpr (Or.inr (List.mem_cons_self _ _))
  simp only [parsePart, hss, if_pos hdashmem, splitOnChar_dash ds es hds hes,
    parseIntPy_digits ds hd hds, parseIntPy_digits es he hes]
  congr 1
  refine List.filter_eq_self.mpr ?_
  intro w _
  exact hf w

/-- A modifier-free range expression "a-b" parses to all of a..b: with
    neither marker present every listed week is kept. -/
theorem parse_weeks_range (ds es : Str) (hd : ds ≠ []) (he : es ≠ [])
    (hds : ∀ c ∈ ds, isDig c = true) (hes : ∀ c ∈ es, isDig c = true)
    (hle : digitsToNat ds ≤ digitsToNat es) :
    parse_weeks (some (ds ++ '-' :: es)) =
      List.range' (digitsToNat ds) (digitsToNat es + 1 - digitsToNat ds) := by
  set s : Str := ds ++ '-' :: es with hs_def
  have hnotmem : ∀ x : Char, isDig x = false → x ≠ '-' → x ∉ s := by
    rw [hs_def]
    exact digitsDash_notmem ds es hds hes
  have hss : strip s = s := by
    rw [hs_def]
    exact strip_eq_self (digitsDash_nws ds es hds hes)
  have hodd : containsSub oddMarker s = false :=
    containsSub_eq_false (hnotmem '单' (by decide) (by decide))
  have heven : containsSub evenMarker s = false :=
    containsSub_eq_false (hnotmem '双' (by decide) (by decide))
  have hrep1 : replaceAll oddMarker [] s = s :=
    replaceF_eq_self (hnotmem '单' (by decide) (by decide))
  have hrep2 : replaceAll evenMarker [] s = s :=
    replaceF_eq_self (hnotmem '双' (by decide) (by decide))
  have hrep3 : replaceAll ['周'] [] s = s :=
    replaceF_eq_self (hnotmem '周' (by decide) (by decide))
  have hcomma : splitOnChar ',' s = [s] := splitOnChar_nosep (by
    intro c hc e
    exact (hnotmem ',' (by decide) (by decide)) (e ▸ hc))
  have hpart : parsePart false false s =
      .ok (List.range' (digitsToNat ds) (digitsToNat es + 1 - digitsToNat ds)) := by
    rw [hs_def]
    exact parsePart_range false false (fun w => by simp [weekFilter]) ds es hd he hds hes
  have hcore : parse_weeks_core s =
      .ok (List.range' (digitsToNat ds) (digitsToNat es + 1 - digitsToNat ds)) := by
    simp only [parse_weeks_core, hss, hodd, heven, hrep1, hrep2, hrep3, hcomma, partsWeeks,
      hpart, List.append_nil]
    rw [sortDedup_of_chain' ((List.pairwise_lt_range' _ _).chain')]
  have hsne : s ≠ [] := by
    rw [hs_def]; cases ds <;> simp
  simp only [parse_weeks]
  rw [if_neg hsne, hcore]

/-- A range expression carrying both markers, "单周双周a-b", parses to all
    of a..b: with both markers present every listed week is kept. -/
theorem parse_weeks_range_both (ds es : Str) (hd : ds ≠ []) (he : es ≠ [])
    (hds : ∀ c ∈ ds, isDig c = true) (hes : ∀ c ∈ es, isDig c = true)
    (hle : digitsToNat ds ≤ digitsToNat es) :
    parse_weeks (some (['单', '周', '双', '周'] ++ (ds ++ '-' :: es))) =
      List.range' (digitsToNat ds) (digitsToNat es + 1 - digitsToNat ds) := by
  have hnotmem : ∀ x : Char, isDig x = false → x ≠ '-' → x ∉ ds ++ '-' :: es :=
    digitsDash_notmem ds es hds hes
  have hnws : ∀ c ∈ (['单', '周', '双', '周'] : Str) ++ (ds ++ '-' :: es),
      isWsChar c = false := by
    intro c hc
    rcases List.mem_append.mp hc with h1 | h2
    · simp only [List.mem_cons, List.not_mem_nil, or_false] at h1
      rcases h1 with rfl | rfl | rfl | rfl <;> decide
    · exact digitsDash_nws ds es hds hes c h2
  have hss : strip ((['单', '周', '双', '周'] : Str) ++ (ds ++ '-' :: es)) =
      (['单', '周', '双', '周'] : Str) ++ (ds ++ '-' :: es) := strip_eq_self hnws
  have hodd : containsSub oddMarker ((['单', '周', '双', '周'] : Str) ++ (ds ++ '-' :: es))
      = true := containsSub_append_left oddMarker _ _ (by decide)
  have heven : containsSub evenMarker ((['单', '周', '双', '周'] : Str) ++ (ds ++ '-' :: es))
      = true := containsSub_append_left evenMarker _ _ (by decide)
  have hnot1 : '单' ∉ (['双', '周'] : Str) ++ (ds ++ '-' :: es) := by
    intro hm
    rcases List.mem_append.mp hm with h1 | h2
    · simp at h1
    · exact hnotmem '单' (by decide) (by decide) h2
  have r1 : replaceAll oddMarker [] ((['单', '周', '双', '周'] : Str) ++ (ds ++ '-' :: es)) =
      (['双', '周'] : Str) ++ (ds ++ '-' :: es) := by
    have h := replaceAll_strip_head '单' ['周'] [] ((['双', '周'] : Str) ++ (ds ++ '-' :: es))
      hnot1
    simpa [oddMarker] using h
  have hnot2 : '双' ∉ ds ++ '-' :: es := hnotmem '双' (by decide) (by decide)
  have r2 : replaceAll evenMarker [] ((['双', '周'] : Str) ++ (ds ++ '-' :: es)) =
      ds ++ '-' :: es := by
    have h := replaceAll_strip_head '双' ['周'] [] (ds ++ '-' :: es) hnot2
    simpa [evenMarker] using h
  have r3 : replaceAll ['周'] [] (ds ++ '-' :: es) = ds ++ '-' :: es :=
    replaceF_eq_self (hnotmem '周' (by decide) (by decide))
  have hcomma : splitOnChar ',' (ds ++ '-' :: es) = [ds ++ '-' :: es] :=
    splitOnChar_nosep (by
      intro c hc e
      exact (hnotmem ',' (by decide) (by decide)) (e ▸ hc))
  have hfilter : ∀ w, weekFilter true true w = true := by
    intro w
    rcases Nat.mod_two_eq_zero_or_one w with h | h <;> simp [weekFilter, h]
  have hpart : parsePart true true (ds ++ '-' :: es) =
      .ok (List.range' (digitsToNat ds) (digitsToNat es + 1 - digitsToNat ds)) :=
    parsePart_range true true hfilter ds es hd he hds hes
  have hcore : parse_weeks_core ((['单', '周', '双', '周'] : Str) ++ (ds ++ '-' :: es)) =
      .ok (List.range' (digitsToNat ds) (digitsToNat es + 1 - digitsToNat ds)) := by
    simp only [parse_weeks_core, hss, hodd, heven, r1, r2, r3, hcomma, partsWeeks, hpart,
      List.append_nil]
    rw [sortDedup_of_chain' ((List.pairwise_lt_range' _ _).chain')]
  have hsne : (['单', '周', '双', '周'] : Str) ++ (ds ++ '-' :: es) ≠ [] := by simp
  simp only [parse_weeks]
  rw [if_neg hsne, hcore]

/-- C2: for every string "a-b" built from two nonempty digit strings with
    values a ≤ b and no odd/even modifier, parse_weeks returns exactly the
    integers a..b inclusive, ascending and duplicate-free; and the
    comma-separated list "1-8,10-16" yields the sorted deduplicated union
    of its parts, with no entry for week 9. -/
theorem C2_week_ranges (ds es : Str) (hd : ds ≠ []) (he : es ≠ [])
    (hds : ∀ c ∈ ds, isDig c = true) (hes : ∀ c ∈ es, isDig c = true)
    (hle : digitsToNat ds ≤ digitsToNat es) :
    parse_weeks (some (ds ++ '-' :: es)) =
      List.range' (digitsToNat ds) (digitsToNat es + 1 - digitsToNat ds) ∧
    parse_weeks (some "1-8,10-16".data) =
      [1, 2, 3, 4, 5, 6, 7, 8, 10, 11, 12, 13, 14, 15, 16] ∧
    9 ∉ parse_weeks (some "1-8,10-16".data) :=
  ⟨parse_weeks_range ds es hd he hds hes hle, by decide, by decide⟩

/-- Witness for C2_week_ranges at the concrete range string "1-3". -/
theorem C2_week_ranges_witness :
    parse_weeks (some (['1'] ++ '-' :: ['3'])) =
      List.range' (digitsToNat ['1']) (digitsToNat ['3'] + 1 - digitsToNat ['1']) ∧
    parse_weeks (some "1-8,10-16".data) =
      [1, 2, 3, 4, 5, 6, 7, 8, 10, 11, 12, 13, 14, 15, 16] ∧
    9 ∉ parse_weeks (some "1-8,10-16".data) :=
  C2_week_ranges ['1'] ['3'] (by decide) (by decide) (by decide) (by decide) (by decide)

/-- C3 counterexample: in "1-2单周双周" the odd marker "单周" is present,
    yet parse_weeks keeps the even week 2 (both modifiers present make the
    source's filter pass every week), so the result does not contain only
    odd week numbers. -/
theorem C3_counterexample :
    containsSub oddMarker "1-2单周双周".data = true ∧
    parse_weeks (some "1-2单周双周".data) = [1, 2] ∧
    2 ∈ parse_weeks (some "1-2单周双周".data) ∧ 2 % 2 = 0 := by decide

/-- C3 amended: the modifier filters act as claimed only when exactly one
    marker is present: with "单周" and not "双周" every returned week is odd,
    with "双周" and not "单周" every returned week is even, and with neither
    or both markers present every listed week is kept: the source's filter
    passes every week whenever the two flags agree, a modifier-free range
    "a-b" parses to all of a..b, and the both-marker range "单周双周a-b"
    also parses to all of a..b; the concrete equalities of the claim hold
    as stated. -/
theorem C3_odd_even_filter (s : Str) :
    (containsSub oddMarker (strip s) = true → containsSub evenMarker (strip s) = false →
      ∀ w ∈ parse_weeks (some s), w % 2 = 1) ∧
    (containsSub evenMarker (strip s) = true → containsSub oddMarker (strip s) = false →
      ∀ w ∈ parse_weeks (some s), w % 2 = 0) ∧
    (∀ isOdd isEven : Bool, ∀ w : Nat, isOdd = isEven → weekFilter isOdd isEven w = true) ∧
    (∀ ds es : Str, ds ≠ [] → es ≠ [] → (∀ c ∈ ds, isDig c = true) →
      (∀ c ∈ es, isDig c = true) → digitsToNat ds ≤ digitsToNat es →
      parse_weeks (some (ds ++ '-' :: es)) =
        List.range' (digitsToNat ds) (digitsToNat es + 1 - digitsToNat ds)) ∧
    (∀ ds es : Str, ds ≠ [] → es ≠ [] → (∀ c ∈ ds, isDig c = true) →
      (∀ c ∈ es, isDig c = true) → digitsToNat ds ≤ digitsToNat es →
      parse_weeks (some (['单', '周', '双', '周'] ++ (ds ++ '-' :: es))) =
        List.range' (digitsToNat ds) (digitsToNat es + 1 - digitsToNat ds)) ∧
    parse_weeks (some "1-15单周".data) = [1, 3, 5, 7, 9, 11, 13, 15] ∧
    parse_weeks (some "2-16双周".data) = [2, 4, 6, 8, 10, 12, 14, 16] ∧
    parse_weeks (some "1-2单周双周".data) = [1, 2] := by
  refine ⟨?_, ?_, ?_, ?_, ?_, by decide, by decide, by decide⟩
  · intro ho he w hw
    have h := parse_weeks_filter hw
    rw [ho, he] at h
    simpa [weekFilter] using h
  · intro he ho w hw
    have h := parse_weeks_filter hw
    rw [ho, he] at h
    simpa [weekFilter] using h
  · intro o e w hoe
    subst hoe
    cases o with
    | false => simp [weekFilter]
    | true => rcases Nat.mod_two_eq_zero_or_one w with h | h <;> simp [weekFilter, h]
  · intro ds es hd he hds hes hle
    exact parse_weeks_range ds es hd he hds hes hle
  · intro ds es hd he hds hes hle
    exact parse_weeks_range_both ds es hd he hds hes hle

/-- Witness for C3_odd_even_filter: the odd filter at "1-15单周", the
    keep-all filter at agreeing flags, and the keep-all parses of the
    modifier-free "1-4" and the both-marker "单周双周1-4". -/
theorem C3_odd_even_filter_witness :
    (∀ w ∈ parse_weeks (some "1-15单周".data), w % 2 = 1) ∧
    weekFilter true true 4 = true ∧
    parse_weeks (some (['1'] ++ '-' :: ['4'])) =
      List.range' (digitsToNat ['1']) (digitsToNat ['4'] + 1 - digitsToNat ['1']) ∧
    parse_weeks (some (['单', '周', '双', '周'] ++ (['1'] ++ '-' :: ['4']))) =
      List.range' (digitsToNat ['1']) (digitsToNat ['4'] + 1 - digitsToNat ['1']) :=
  ⟨(C3_odd_even_filter "1-15单周".data).1 (by decide) (by decide),
   (C3_odd_even_filter []).2.2.1 true true 4 rfl,
   (C3_odd_even_filter []).2.2.2.1 ['1'] ['4'] (by decide) (by decide) (by decide) (by decide)
     (by decide),
   (C3_odd_even_filter []).2.2.2.2.1 ['1'] ['4'] (by decide) (by decide) (by decide)
     (by decide) (by decide)⟩

/-- C4: parse_weeks never lets a parsing exception escape: a non-string
    (None) input and the empty string both give the empty week set, every
    input whose part loop raises (modelled by parse_weeks_core returning
    an error) gives the empty week set, and the concrete malformed inputs
    "abc", "3-" and "1-2-3" all give the empty week set. -/
theorem C4_never_raises :
    parse_weeks none = [] ∧ parse_weeks (some []) = [] ∧
    (∀ s, parse_weeks_core s = .error () → parse_weeks (some s) = []) ∧
    parse_weeks (some "abc".data) = [] ∧
    parse_weeks (some "3-".data) = [] ∧
    parse_weeks (some "1-2-3".data) = [] := by
  refine ⟨rfl, by decide, ?_, by decide, by decide, by decide⟩
  intro s h
  simp only [parse_weeks]
  split
  · rfl
  · rw [h]

/-- Witness for C4_never_raises: "3-" makes the embedded int() raise, and
    the call still returns the empty week set. -/
theorem C4_never_raises_witness :
    parse_weeks (some "3-".data) = [] :=
  C4_never_raises.2.2.1 "3-".data rfl

/- ===== Lemmas about parse_course_info ===== -/

theorem normLines_of_strip_nil {s : Str} (h : strip s = []) : normLines s = [] := by
  have hws : ∀ c ∈ s, isWsChar c = true := strip_eq_nil_iff.mp h
  have hrep : ∀ c ∈ replaceAll ['\r', '\n'] ['\n'] s, isWsChar c = true := by
    intro c hc
    rcases replaceF_mem hc with h1 | h2
    · rcases List.mem_singleton.mp h1 with rfl
      decide
    · exact hws c h2
  have h2 : strip (replaceAll ['\r', '\n'] ['\n'] s) = [] := strip_eq_nil_iff.mpr hrep
  unfold normLines
  rw [h2]
  rfl

theorem parse_course_info_eq (s : Str) :
    parse_course_info s = parseFromLines (normLines s) := by
  unfold parse_course_info
  split
  · rename_i h
    rw [normLines_of_strip_nil h]
    rfl
  · rfl

theorem normLines_mem {s : Str} {l : Str} (h : l ∈ normLines s) :
    l ≠ [] ∧ ∃ p, l = strip p := by
  unfold normLines at h
  rcases List.mem_filter.mp h with ⟨h1, h2⟩
  rcases List.mem_map.mp h1 with ⟨p, _, rfl⟩
  refine ⟨?_, p, rfl⟩
  simpa using h2

theorem classifyStep_course_name (r : CourseInfo) (c : Str) :
    (classifyStep r c).course_name = r.course_name := by
  unfold classifyStep
  repeat' split
  all_goals rfl

theorem foldl_classify_course_name (cs : List Str) (r : CourseInfo) :
    (cs.foldl classifyStep r).course_name = r.course_name := by
  induction cs generalizing r with
  | nil => rfl
  | cons c rest ih => rw [List.foldl_cons, ih, classifyStep_course_name]

theorem getD_of_take_eq {l1 l2 : List Str} (h : l1.take 4 = l2.take 4) {i : Nat}
    (hi : i < 4) : l1.getD i [] = l2.getD i [] := by
  have h2 := congrArg (fun t => t[i]?) h
  simp only [List.getElem?_take, if_pos hi] at h2
  rw [List.getD_eq_getElem?_getD, List.getD_eq_getElem?_getD, h2]

/-- C7: a cell whose normalized text has fewer than four non-blank lines is
    rejected by parse_course_info. -/
theorem C7_short_cell_none (s : Str) (h : (normLines s).length < 4) :
    parse_course_info s = none := by
  rw [parse_course_info_eq]
  unfold parseFromLines
  rw [if_pos h]

/-- Witness for C7_short_cell_none: the two-line cell "体育\n[王老师]". -/
theorem C7_short_cell_none_witness :
    (normLines "体育\n[王老师]".data).length < 4 ∧
    parse_course_info "体育\n[王老师]".data = none :=
  ⟨by decide, C7_short_cell_none "体育\n[王老师]".data (by decide)⟩

/-- C10: parse_course_info depends only on the first four non-blank lines
    of the cell: two texts agreeing there parse identically. -/
theorem C10_first_four_lines (s1 s2 : Str)
    (h : (normLines s1).take 4 = (normLines s2).take 4) :
    parse_course_info s1 = parse_course_info s2 := by
  rw [parse_course_info_eq, parse_course_info_eq]
  have hlen : min 4 (normLines s1).length = min 4 (normLines s2).length := by
    simpa [List.length_take] using congrArg List.length h
  unfold parseFromLines
  by_cases h4 : (normLines s1).length < 4
  · have h4' : (normLines s2).length < 4 := by omega
    rw [if_pos h4, if_pos h4']
  · have h4' : ¬(normLines s2).length < 4 := by omega
    rw [if_neg h4, if_neg h4',
      getD_of_take_eq h (show 0 < 4 by omega), getD_of_take_eq h (show 1 < 4 by omega),
      getD_of_take_eq h (show 2 < 4 by omega), getD_of_take_eq h (show 3 < 4 by omega)]

/-- Witness for C10_first_four_lines: a fifth non-blank line is ignored. -/
theorem C10_first_four_lines_witness :
    (normLines "高等数学\n[张老师]\n[计算机2301]\n[1-16周][教三-301][1-2节]".data).take 4 =
      (normLines "高等数学\n[张老师]\n[计算机2301]\n[1-16周][教三-301][1-2节]\n备注".data).take 4 ∧
    parse_course_info "高等数学\n[张老师]\n[计算机2301]\n[1-16周][教三-301][1-2节]".data =
      parse_course_info "高等数学\n[张老师]\n[计算机2301]\n[1-16周][教三-301][1-2节]\n备注".data :=
  ⟨by decide, C10_first_four_lines _ _ (by decide)⟩

/-- C6 counterexample: a cell whose first non-blank line starts with '['
    parses to a record (not none) whose course_name is the empty string,
    so the claimed invariant "course_name is non-empty whenever the record
    exists" fails on the code. -/
theorem C6_counterexample :
    parse_course_info "[数学]\n[张老师]\n[计算机2301]\n[1-2周]".data =
      some ⟨[], "张老师".data, "计算机2301".data, "1-2周".data, [], []⟩ := by decide

/-- C6 amended: if parse_course_info returns a record and the first
    non-blank line does not begin with '[', then course_name is
    non-empty. -/
theorem C6_course_name (s : Str) (r : CourseInfo)
    (h : parse_course_info s = some r)
    (hb : ((normLines s).getD 0 []).head? ≠ some '[') :
    r.course_name ≠ [] := by
  rw [parse_course_info_eq] at h
  unfold parseFromLines at h
  split at h
  · simp at h
  · rename_i hlen
    simp only [Option.some.injEq] at h
    have hcn : r.course_name =
        strip (((normLines s).getD 0 []).takeWhile (fun ch => ch ≠ '[')) := by
      rw [← h, foldl_classify_course_name]
    have hne4 : 0 < (normLines s).length := by omega
    obtain ⟨l0, rest, hnl⟩ : ∃ l0 rest, normLines s = l0 :: rest := by
      cases hx : normLines s with
      | nil => rw [hx] at hne4; simp at hne4
      | cons a b => exact ⟨a, b, rfl⟩
    have hmem : l0 ∈ normLines s := by
      rw [hnl]; exact List.mem_cons_self _ _
    obtain ⟨hl0ne, p, hp⟩ := normLines_mem hmem
    have hgetD : (normLines s).getD 0 [] = l0 := by rw [hnl]; rfl
    obtain ⟨c, t, hct⟩ : ∃ c t, l0 = c :: t := by
      cases l0 with
      | nil => exact absurd rfl hl0ne
      | cons c t => exact ⟨c, t, rfl⟩
    have hcws : isWsChar c = false := strip_head_not_ws (l := p) (by rw [← hp, hct])
    have hcne : c ≠ '[' := by
      intro e
      apply hb
      rw [hgetD, hct, e]
      rfl
    have htw : l0.takeWhile (fun ch => ch ≠ '[') =
        c :: t.takeWhile (fun ch => ch ≠ '[') := by
      rw [hct, List.takeWhile_cons, if_pos (by simp [hcne])]
    rw [hcn, hgetD, htw]
    intro hnil
    have hcontra := strip_eq_nil_iff.mp hnil c (List.mem_cons_self _ _)
    rw [hcws] at hcontra
    cases hcontra

/-- Witness for C6_course_name at the 高等数学 cell. -/
theorem C6_course_name_witness :
    (⟨"高等数学".data, "张老师".data, "计算机2301".data, "1-16周".data, "教三-301".data,
      "1-2节".data⟩ : CourseInfo).course_name ≠ [] :=
  C6_course_name "高等数学\n[张老师]\n[计算机2301]\n[1-16周][教三-301][1-2节]".data _
    (by decide) (by decide)

/-- C5 counterexample: the comma-separated content "1-8,10-16周" does not
    match the week-range regex of classification rule 1, so once week_info
    was already set by an earlier bracket it is NOT assigned to week_info:
    in this cell it falls through to the time fallback (rule 5) and lands
    in time_info instead. -/
theorem C5_counterexample :
    matchesWeekRule "1-8,10-16周".data = false ∧
    parse_course_info "数学\n[张三]\n[软件2301]\n[1-16周][1-8,10-16周]".data =
      some ⟨"数学".data, "张三".data, "软件2301".data,
        "1-16周".data, [], "1-8,10-16周".data⟩ := by decide

/-- C5 amended: rule 1 of the classifier accepts exactly the comma-free
    week grammar (one integer or one range, optionally suffixed by
    单周/双周/周), and any content matching it is assigned to week_info
    unconditionally, overwriting whatever was set before; a
    comma-separated list such as "1-8,10-16周" fails rule 1 and reaches
    week_info only through fallback rule 4, i.e. only when week_info is
    still unset. -/
theorem C5_week_rule (r : CourseInfo) (c : Str) (hc : matchesWeekRule c = true) :
    (classifyStep r c).week_info = c ∧
    matchesWeekRule "1-8,10-16周".data = false ∧
    (parse_course_info "数学\n[张三]\n[软件2301]\n[1-8,10-16周]".data).map
      CourseInfo.week_info = some "1-8,10-16周".data := by
  refine ⟨?_, by decide, by decide⟩
  unfold classifyStep
  rw [if_pos hc]

/-- Witness for C5_week_rule: "1-16周" matches rule 1 and overwrites an
    already-set week_info field. -/
theorem C5_week_rule_witness :
    (classifyStep
      ⟨"数学".data, [], [], "5周".data, [], []⟩ "1-16周".data).week_info =
        "1-16周".data ∧
    matchesWeekRule "1-8,10-16周".data = false ∧
    (parse_course_info "数学\n[张三]\n[软件2301]\n[1-8,10-16周]".data).map
      CourseInfo.week_info = some "1-8,10-16周".data :=
  C5_week_rule ⟨"数学".data, [], [], "5周".data, [], []⟩ "1-16周".data (by decide)

/- ===== Lemmas about the schedule expander ===== -/

theorem searchSlot_mem {s : Str} {g : Str × Str} (h : searchSlot s = some g) :
    '第' ∈ s := by
  induction s with
  | nil => simp [searchSlot] at h
  | cons c cs ih =>
    by_cases hc : c = '第'
    · rw [hc]; exact List.mem_cons_self _ _
    · rw [searchSlot, if_neg hc] at h
      exact List.mem_cons_of_mem c (ih h)

/-- C8: a body row whose period label's first 第N-M节 match has equal
    groups produces zero events, whatever the row's other cells hold. -/
theorem C8_single_period_skipped (header row : List Cell) (s d : Str)
    (h0 : (row.get? 0).getD none = some s)
    (hs : searchSlot s = some (d, d)) :
    rowEvents header row = [] := by
  have hmem : '第' ∈ s := searchSlot_mem hs
  simp only [rowEvents, h0, if_pos hmem, hs]
  simp

/-- Witness for C8_single_period_skipped: the 第1-1节 row with a full
    course cell still contributes nothing. -/
theorem C8_single_period_skipped_witness :
    rowEvents hdrRow [some "第1-1节".data, some mathCell, none, none, none, none, none, none]
      = [] :=
  C8_single_period_skipped hdrRow _ "第1-1节".data "1".data (by decide) (by decide)

/-- C9: a body row whose extracted N-M节 key is absent from
    class_time_map contributes zero events, and removing it from the grid
    leaves every other row's events unchanged. -/
theorem C9_unknown_slot (f3 pre post : List (List Cell)) (row : List Cell)
    (hf3 : f3.length = 3) (s d1 d2 : Str)
    (h0 : (row.get? 0).getD none = some s)
    (hs : searchSlot s = some (d1, d2)) (hne : d1 ≠ d2)
    (hk : assocLookup class_time_map (d1 ++ '-' :: (d2 ++ ['节'])) = none) :
    rowEvents (((f3 ++ (pre ++ row :: post)).get? 2).getD []) row = [] ∧
    createEvents (f3 ++ (pre ++ row :: post)) = createEvents (f3 ++ (pre ++ post)) := by
  have hrow : ∀ header, rowEvents header row = [] := by
    intro header
    have hmem : '第' ∈ s := searchSlot_mem hs
    simp only [rowEvents, h0, if_pos hmem, hs]
    rw [if_neg hne, hk]
  refine ⟨hrow _, ?_⟩
  unfold createEvents
  have hh : ∀ x : List (List Cell), ((f3 ++ x).get? 2).getD [] = (f3.get? 2).getD [] := by
    intro x
    rw [List.get?_eq_getElem?, List.get?_eq_getElem?, List.getElem?_append_left (by omega)]
  have hd : ∀ x : List (List Cell), (f3 ++ x).drop 3 = x := by
    intro x
    rw [← hf3, List.drop_left]
  rw [hh, hh, hd, hd, List.flatMap_append, List.flatMap_append, List.flatMap_cons, hrow]
  simp

/-- Witness for C9_unknown_slot: a grid with the 第11-12节 row between the
    headers and the 第1-2节 row; the unknown row yields nothing and the
    rest of the grid is unaffected. -/
theorem C9_unknown_slot_witness :
    rowEvents ((([[], [], hdrRow] ++ ([] ++ unknownRow :: [bodyRow12])).get? 2).getD [])
      unknownRow = [] ∧
    createEvents ([[], [], hdrRow] ++ ([] ++ unknownRow :: [bodyRow12])) =
      createEvents ([[], [], hdrRow] ++ ([] ++ [bodyRow12])) :=
  C9_unknown_slot [[], [], hdrRow] [] [bodyRow12] unknownRow (by decide)
    "第11-12节".data "11".data "12".data (by decide) (by decide) (by decide) (by decide)

theorem weekdayCol_mem {header row : List Cell} {tk : Str} {tm : ClockRange} {col : Nat}
    {e : EventRecord} (h : e ∈ weekdayCol header row tk tm col) :
    ∃ wd off txt ci w,
      (header.get? col).getD none = some wd ∧
      assocLookup weekday_map wd = some off ∧
      (row.get? col).getD none = some txt ∧
      parse_course_info txt = some ci ∧
      w ∈ parse_weeks (some ci.week_info) ∧
      e = mkEvent ci tk tm off w := by
  simp only [weekdayCol] at h
  split at h
  · simp at h
  · rename_i wd hwd
    split at h
    · simp at h
    · rename_i off hoff
      split at h
      · simp at h
      · rename_i txt htxt
        split at h
        · simp at h
        · split at h
          · simp at h
          · rename_i ci hci
            split at h
            · simp at h
            · rcases List.mem_map.mp h with ⟨w, hw, rfl⟩
              exact ⟨wd, off, txt, ci, w, hwd, hoff, htxt, hci, hw, rfl⟩

theorem rowEvents_mem {header row : List Cell} {e : EventRecord}
    (h : e ∈ rowEvents header row) :
    ∃ slot d1 d2 tm col,
      (row.get? 0).getD none = some slot ∧
      searchSlot slot = some (d1, d2) ∧ d1 ≠ d2 ∧
      assocLookup class_time_map (d1 ++ '-' :: (d2 ++ ['节'])) = some tm ∧
      e ∈ weekdayCol header row (d1 ++ '-' :: (d2 ++ ['节'])) tm col := by
  simp only [rowEvents] at h
  split at h
  · simp at h
  · rename_i slot hslot
    split at h
    · split at h
      · simp at h
      · rename_i d1 d2 hsearch
        split at h
        · simp at h
        · rename_i hne
          split at h
          · simp at h
          · rename_i tm htm
            rcases List.mem_flatMap.mp h with ⟨col, _, hmem⟩
            exact ⟨slot, d1, d2, tm, col, hslot, hsearch, hne, htm, hmem⟩
    · simp at h

/-- C1: every emitted event's start date is semester_start plus (week-1)
    whole weeks plus the weekday offset, with the slot's fixed clock times
    attached; and the end-to-end test grid (第1-2节 row, 星期一 column,
    高等数学 cell with weeks 1-16周) yields exactly 16 events on successive
    Mondays 7 days apart, each 08:00-09:50, whose descriptions contain
    "教师: 张老师" and "地点: 教三-301". -/
theorem C1_event_expansion :
    (∀ grid e, e ∈ createEvents grid →
      ∃ ci tk tm off w wd,
        assocLookup weekday_map wd = some off ∧
        assocLookup class_time_map tk = some tm ∧
        w ∈ parse_weeks (some ci.week_info) ∧
        e = mkEvent ci tk tm off w ∧
        e.dtstart = ⟨semester_start + 7 * ((w : Int) - 1) + (off : Int), tm.1, tm.2.1⟩ ∧
        e.dtend = ⟨semester_start + 7 * ((w : Int) - 1) + (off : Int), tm.2.2.1, tm.2.2.2⟩) ∧
    (createEvents testGrid).length = 16 ∧
    (createEvents testGrid).map (fun e => e.dtstart.day) =
      (List.range 16).map (fun i => semester_start + 7 * (i : Int)) ∧
    (∀ e ∈ createEvents testGrid,
      e.dtstart.hour = 8 ∧ e.dtstart.minute = 0 ∧ e.dtend.hour = 9 ∧ e.dtend.minute = 50 ∧
      dayOfWeek e.dtstart.day = 1 ∧
      containsSub "教师: 张老师".data e.description = true ∧
      containsSub "地点: 教三-301".data e.description = true) := by
  refine ⟨?_, by decide, by decide, by decide⟩
  intro grid e he
  unfold createEvents at he
  rcases List.mem_flatMap.mp he with ⟨row, _, he2⟩
  rcases rowEvents_mem he2 with ⟨slot, d1, d2, tm, col, _, _, _, htm, hcol⟩
  rcases weekdayCol_mem hcol with ⟨wd, off, txt, ci, w, _, hoff, _, _, hw, rfl⟩
  exact ⟨ci, _, tm, off, w, wd, hoff, htm, hw, rfl, rfl, rfl⟩

/-- Witness for C1_event_expansion: the week-1 event of the test grid. -/
theorem C1_event_expansion_witness :
    ∃ ci tk tm off w wd,
      assocLookup weekday_map wd = some off ∧
      assocLookup class_time_map tk = some tm ∧
      w ∈ parse_weeks (some ci.week_info) ∧
      firstEvent = mkEvent ci tk tm off w ∧
      firstEvent.dtstart =
        ⟨semester_start + 7 * ((w : Int) - 1) + (off : Int), tm.1, tm.2.1⟩ ∧
      firstEvent.dtend =
        ⟨semester_start + 7 * ((w : Int) - 1) + (off : Int), tm.2.2.1, tm.2.2.2⟩ :=
  C1_event_expansion.1 testGrid firstEvent (by decide)
